import Mathlib

/-!
Shallow embedding of the Pengputer virtual filesystem
(src/src/Pengputer/FileSystem.ts) in Lean 4, together with theorems settling
the frozen claims about it.

Modelling conventions:
* TypeScript strings that the code iterates over character by character
  (path strings handed to the parser) are embedded as `List Char`; strings
  only compared for equality (segment names, file names) stay `String`.
* `null` becomes `Option.none`; a thrown exception becomes `Except.error`
  when the source distinguishes messages, or `Option.none` when only the
  fact of the crash matters (the surrounding JS would surface it as an
  uncaught exception).
* The browser localStorage value under the `floppies` key is the persisted
  `FloppyStorage` array; it is passed in and returned explicitly.  The
  `data` field of a record holds a JSON string in the source; it is embedded
  as `Option FloppySerialized`, where `none` stands for a string on which
  `JSON.parse` / deserialization throws.
-/

/-- The 26 drive labels A..Z (`DriveLabelValues` in the source). -/
inductive DriveLabel where
  | A | B | C | D | E | F | G | H | I | J | K | L | M
  | N | O | P | Q | R | S | T | U | V | W | X | Y | Z
deriving DecidableEq, Repr

/-- `isDriveLabel` from the source: a string is a drive label iff it is one of
the 26 single uppercase letters; here returning the label itself. -/
def driveLabelOfChars : List Char → Option DriveLabel
  | ['A'] => some DriveLabel.A
  | ['B'] => some DriveLabel.B
  | ['C'] => some DriveLabel.C
  | ['D'] => some DriveLabel.D
  | ['E'] => some DriveLabel.E
  | ['F'] => some DriveLabel.F
  | ['G'] => some DriveLabel.G
  | ['H'] => some DriveLabel.H
  | ['I'] => some DriveLabel.I
  | ['J'] => some DriveLabel.J
  | ['K'] => some DriveLabel.K
  | ['L'] => some DriveLabel.L
  | ['M'] => some DriveLabel.M
  | ['N'] => some DriveLabel.N
  | ['O'] => some DriveLabel.O
  | ['P'] => some DriveLabel.P
  | ['Q'] => some DriveLabel.Q
  | ['R'] => some DriveLabel.R
  | ['S'] => some DriveLabel.S
  | ['T'] => some DriveLabel.T
  | ['U'] => some DriveLabel.U
  | ['V'] => some DriveLabel.V
  | ['W'] => some DriveLabel.W
  | ['X'] => some DriveLabel.X
  | ['Y'] => some DriveLabel.Y
  | ['Z'] => some DriveLabel.Z
  | _ => none

/-- The `FilePath` value: drive, normalized pieces, absoluteness. -/
structure FilePath where
  drive : Option DriveLabel
  pieces : List String
  isAbsolute : Bool
deriving DecidableEq, Repr

/-- One iteration of the piece-normalization loop in the private `FilePath`
constructor: `..` pops on an absolute path (no-op on an empty accumulator)
and is kept literally on a relative path; `.` is dropped. -/
def normalizeStep (isAbs : Bool) (acc : List String) (piece : String) : List String :=
  if piece = ".." then
    if isAbs then (if acc.length ≠ 0 then acc.dropLast else acc)
    else acc ++ [".."]
  else if piece = "." then acc
  else acc ++ [piece]

/-- The private `FilePath` constructor: forces `isAbsolute` whenever a drive
is present, then normalizes the pieces left to right. -/
def FilePath.make (drive : Option DriveLabel) (pieces : List String)
    (isAbsolute : Bool) : FilePath :=
  let isAbs := drive.isSome || isAbsolute
  { drive := drive
    pieces := pieces.foldl (normalizeStep isAbs) []
    isAbsolute := isAbs }

/-- Splits a character list at the first colon, mirroring
`path.indexOf(":")` followed by the two `slice` calls; `none` when the
list holds no colon (`colonIndex < 0`). -/
def splitFirstColon : List Char → Option (List Char × List Char)
  | [] => none
  | c :: rest =>
    if c = ':' then some ([], rest)
    else
      match splitFirstColon rest with
      | none => none
      | some (pre, post) => some (c :: pre, post)

/-- `path.split("/")` on a character list. -/
def splitOnSlash : List Char → List (List Char)
  | [] => [[]]
  | c :: rest =>
    if c = '/' then [] :: splitOnSlash rest
    else
      match splitOnSlash rest with
      | [] => [[c]]
      | p :: ps => (c :: p) :: ps

/-- `path.length === 0 || path[0] === "/"` from `tryParse`. -/
def tryParseIsAbs (path : List Char) : Bool :=
  path.length = 0 || path.head? = some '/'

/-- `path.split("/").filter((s) => s.length > 0)` from `tryParse`. -/
def piecesOf (path : List Char) : List String :=
  ((splitOnSlash path).filter (fun l => l.length ≠ 0)).map (fun l => String.mk l)

/-- The tail of `FilePath.tryParse` after the drive prefix has been removed:
decides absoluteness, substitutes the default drive, splits the remainder
into nonempty pieces and builds the path through the constructor. -/
def tryParseTail (drive : Option DriveLabel) (path : List Char)
    (defaultDrive : Option DriveLabel) : FilePath :=
  FilePath.make
    (if tryParseIsAbs path && drive = none then defaultDrive else drive)
    (piecesOf (if tryParseIsAbs path then path.drop 1 else path))
    (tryParseIsAbs path)

/-- `FilePath.tryParse(path, defaultDrive)` from the source, on the path
string as a character list. -/
def FilePath.tryParse (path : List Char)
    (defaultDrive : Option DriveLabel := none) : Option FilePath :=
  if path = [] then some (FilePath.make none [] false)
  else if path = ['/'] then some (FilePath.make none [] true)
  else
    match splitFirstColon path with
    | some (driveChars, rest) =>
      match driveLabelOfChars (driveChars.map Char.toUpper) with
      | none => none
      | some d => some (tryParseTail (some d) rest defaultDrive)
    | none => some (tryParseTail none path defaultDrive)

/-- `FilePath.combine(other)` from the source: when `other` is absolute the
receiver is returned unchanged; otherwise the piece lists are concatenated
and renormalized under the receiver drive and absoluteness. -/
def FilePath.combine (p other : FilePath) : FilePath :=
  if other.isAbsolute then p
  else FilePath.make p.drive (p.pieces ++ other.pieces) p.isAbsolute

/-- `FilePath.parentDirectory()` from the source. -/
def FilePath.parentDirectory (p : FilePath) : FilePath :=
  if p.pieces = [] then p
  else FilePath.make p.drive p.pieces.dropLast p.isAbsolute






/-- Modelled from the spec: `TextFile` lives in fileTypes.ts, which is not
part of the given sources; per the spec it stores text content read and
written as a whole value (`replace` / `getText`). -/
structure TextFile where
  text : String
deriving DecidableEq, Repr

/-- `TextFile.replace` overwrites the whole content. -/
def TextFile.replace (_t : TextFile) (s : String) : TextFile := ⟨s⟩

/-- `TextFile.getText` reads the whole content. -/
def TextFile.getText (t : TextFile) : String := t.text

/-- Modelled from the spec: `BinaryFile` lives in fileTypes.ts, which is not
part of the given sources; per the spec it carries opaque binary content as
one string value exposed as `data`. -/
structure BinaryFile where
  data : String
deriving DecidableEq, Repr

/-- The `FileInfo` closed union.  The payloads of the executable, audio,
image and link variants live in modules outside the given sources and are
never inspected by the operations under verification; they are embedded as
opaque strings (a factory descriptor or an asset reference). -/
inductive FileInfo where
  | directory (name : String) (entries : List FileInfo)
  | text (name : String) (data : TextFile)
  | executable (name : String) (createInstance : String)
  | audio (name : String) (data : String)
  | image (name : String) (data : String)
  | link (name : String) (data : String) (openType : String)
  | binary (name : String) (data : BinaryFile)
deriving Repr

/-- The `name` field every `FileInfo` variant carries. -/
def FileInfo.name : FileInfo → String
  | .directory n _ => n
  | .text n _ => n
  | .executable n _ => n
  | .audio n _ => n
  | .image n _ => n
  | .link n _ _ => n
  | .binary n _ => n

/-- `e.type === FileSystemObjectType.Directory` as a Bool. -/
def FileInfo.isDirectory : FileInfo → Bool
  | .directory _ _ => true
  | _ => false

/-- The entry list of a directory (`FileInfoDirectory.entries`); empty on
the other variants, on which the source never reads it. -/
def FileInfo.entries : FileInfo → List FileInfo
  | .directory _ es => es
  | _ => []

/-- `FileInfoDirectory.rmdir(name, force)` from the source, acting on the
entry list of the receiving directory and returning the updated list. -/
def FileInfoDirectory.rmdir (entries : List FileInfo) (name : String)
    (force : Bool) : Except String (List FileInfo) :=
  match entries.find? (fun e => e.name == name) with
  | none => .error (name ++ " does not exist")
  | some dir =>
    if dir.isDirectory = false then .error (name ++ " is not a directory")
    else if dir.entries.length ≠ 0 && !force then .error (name ++ " is not empty")
    else .ok (entries.filter (fun e => !(e.name == name)))

/-- The serialized floppy tree node (`FloppySerializedFile` and
`FloppySerializedDirectory` from the source, as one closed union). -/
inductive FloppySerializedEntry where
  | dir (name : String) (entries : List FloppySerializedEntry)
  | txt (name : String) (textData : String)
  | bin (name : String) (binaryData : String)
deriving Repr

/-- `FloppySerialized`: the serialized form of a whole floppy, a single
root directory node. -/
structure FloppySerialized where
  root : FloppySerializedEntry
deriving Repr

mutual

/-- `FloppyFileSystemDrive.#serializeFile` (and, on the directory arm,
`#serializeDirectory`): `none` models the thrown
`Unrecognized or unsupported file info type` error. -/
def serializeFile : FileInfo → Option FloppySerializedEntry
  | .directory n es => (serializeEntries es).map (FloppySerializedEntry.dir n)
  | .text n d => some (.txt n d.getText)
  | .binary n d => some (.bin n d.data)
  | _ => none

/-- The `entries.map(serializeFile)` step of `#serializeDirectory`; a
throw from any child propagates. -/
def serializeEntries : List FileInfo → Option (List FloppySerializedEntry)
  | [] => some []
  | f :: fs =>
    match serializeFile f, serializeEntries fs with
    | some s, some ss => some (s :: ss)
    | _, _ => none

end

mutual

/-- `FloppyFileSystemDrive.#deserializeFile` (and, on the directory arm,
`#deserializeDirectory`).  Total: the closed serialized type has no
unrecognized tag, so the final throw branch is unrepresentable. -/
def deserializeFile : FloppySerializedEntry → FileInfo
  | .dir n es => .directory n (deserializeEntries es)
  | .txt n t => .text n (TextFile.replace ⟨""⟩ t)
  | .bin n b => .binary n (BinaryFile.mk b)

/-- The `entries.map(deserializeFile)` step of `#deserializeDirectory`. -/
def deserializeEntries : List FloppySerializedEntry → List FileInfo
  | [] => []
  | e :: es => deserializeFile e :: deserializeEntries es

end

mutual

/-- The side condition of the round-trip contract: the tree contains only
Directory, TextFile and Binary entries. -/
def serializableOnly : FileInfo → Bool
  | .directory _ es => serializableOnlyList es
  | .text _ _ => true
  | .binary _ _ => true
  | _ => false

/-- `serializableOnly` on an entry list. -/
def serializableOnlyList : List FileInfo → Bool
  | [] => true
  | e :: es => serializableOnly e && serializableOnlyList es

end


/-- `FileSystemDrive`: a transient drive or a floppy drive, each exposing a
root directory entry. -/
inductive FileSystemDrive where
  | transient (rootEntry : FileInfo)
  | floppy (rootEntry : FileInfo)

/-- The root directory entry of a drive. -/
def FileSystemDrive.rootEntry : FileSystemDrive → FileInfo
  | .transient r => r
  | .floppy r => r

/-- `drive.type === FileSystemDriveKind.Floppy` as a Bool. -/
def FileSystemDrive.isFloppy : FileSystemDrive → Bool
  | .transient _ => false
  | .floppy _ => true

/-- A fresh `TransientFileSystemDrive` (root named `/`, no entries). -/
def emptyTransientDrive : FileSystemDrive :=
  .transient (FileInfo.directory "/" [])

/-- One persisted `FloppyStorage` record.  `data` is a JSON string in the
source; `none` here models a string whose `JSON.parse` or deserialization
throws (a corrupt record). -/
structure FloppyStorage where
  name : String
  drive : Option DriveLabel
  data : Option FloppySerialized

/-- The `FileSystem` manager state: the drive-label to drive mount table
(the `drives` object in the source). -/
structure FileSystem where
  drives : DriveLabel → Option FileSystemDrive

/-- `FileSystem.mount` as a table update; the `false` result of the source
(label occupied) is the `none` outcome. -/
def FileSystem.mount (drives : DriveLabel → Option FileSystemDrive)
    (label : DriveLabel) (drive : FileSystemDrive) :
    Option (DriveLabel → Option FileSystemDrive) :=
  match drives label with
  | some _ => none
  | none => some (fun l => if l = label then some drive else drives l)

/-- `FileSystem.unmount` as a table update. -/
def FileSystem.unmount (drives : DriveLabel → Option FileSystemDrive)
    (label : DriveLabel) : DriveLabel → Option FileSystemDrive :=
  fun l => if l = label then none else drives l

/-- `FileSystem.#insertFloppyInternal`: parse the stored data, build the
floppy drive, mount it, and mark the record as mounted at `label`; `none`
models every thrown error (corrupt data, or a mount refusal). -/
def insertFloppyInternal (drives : DriveLabel → Option FileSystemDrive)
    (label : DriveLabel) (floppy : FloppyStorage) :
    Option ((DriveLabel → Option FileSystemDrive) × FloppyStorage) :=
  match floppy.data with
  | none => none
  | some contents =>
    let drive := FileSystemDrive.floppy (deserializeFile contents.root)
    match FileSystem.mount drives label drive with
    | none => none
    | some drives2 => some (drives2, { floppy with drive := some label })

/-- The re-mount loop of the `FileSystem` constructor over the stored
records; a record whose `drive` field is null is skipped, and any throw
from `#insertFloppyInternal` is rethrown by the `catch`, aborting the
whole loop. -/
def constructGo (drives : DriveLabel → Option FileSystemDrive) :
    List FloppyStorage →
    Option ((DriveLabel → Option FileSystemDrive) × List FloppyStorage)
  | [] => some (drives, [])
  | f :: rest =>
    match f.drive with
    | none => (constructGo drives rest).map (fun dl => (dl.1, f :: dl.2))
    | some label =>
      match insertFloppyInternal drives label f with
      | none => none
      | some (drives2, f2) =>
        (constructGo drives2 rest).map (fun dl => (dl.1, f2 :: dl.2))

/-- The `FileSystem` constructor: mounts a transient drive at `C`, re-mounts
every stored record whose `drive` field is non-null, then writes the record
array back to the store.  The result pairs the constructed manager with the
array written back; `none` models an exception escaping the constructor. -/
def FileSystem.construct (floppyData : List FloppyStorage) :
    Option (FileSystem × List FloppyStorage) :=
  let drives0 : DriveLabel → Option FileSystemDrive :=
    fun l => if l = DriveLabel.C then some emptyTransientDrive else none
  (constructGo drives0 floppyData).map (fun dl => (⟨dl.1⟩, dl.2))

/-- The body of the `FileSystem.commit` loop for one record.  When the
record is marked mounted but the mount table holds nothing at its label,
the source reads `.type` of `undefined` and throws a TypeError, modelled
as `none`; a serialization throw (unsupported file kind) also propagates. -/
def commitRecord (fs : FileSystem) (floppy : FloppyStorage) :
    Option FloppyStorage :=
  match floppy.drive with
  | none => some floppy
  | some label =>
    match fs.drives label with
    | none => none
    | some drive =>
      if drive.isFloppy = false then some { floppy with drive := none }
      else
        match serializeFile drive.rootEntry with
        | none => none
        | some s => some { floppy with data := some ⟨s⟩ }

/-- The `FileSystem.commit` loop over the stored records. -/
def commitList (fs : FileSystem) : List FloppyStorage →
    Option (List FloppyStorage)
  | [] => some []
  | f :: rest =>
    match commitRecord fs f, commitList fs rest with
    | some f2, some rest2 => some (f2 :: rest2)
    | _, _ => none

/-- `FileSystem.commit()`: updates every record from the mount table and
returns the array written back to the store; `none` models an exception
escaping `commit`. -/
def FileSystem.commit (fs : FileSystem) (floppyData : List FloppyStorage) :
    Option (List FloppyStorage) :=
  commitList fs floppyData

/-- The `^[a-zA-Z0-9_]+$` test of `FileSystem.spawnFloppy`. -/
def floppyNameOk (name : String) : Bool :=
  name.length ≠ 0 && name.toList.all (fun c => c.isAlphanum || c = '_')

/-- The serialized contents a fresh floppy is spawned with. -/
def emptyFloppySerialized : FloppySerialized :=
  ⟨.dir "/" []⟩

/-- `FileSystem.spawnFloppy(name)` from the source, as a function of the
persisted record array. -/
def FileSystem.spawnFloppy (floppyData : List FloppyStorage) (name : String) :
    Except String (List FloppyStorage) :=
  if floppyNameOk name = false then .error "Invalid floppy name\n"
  else if (floppyData.find? (fun d => d.name == name)).isSome then
    .error ("Floppy \x27" ++ name ++ "\x27 already exists\n")
  else
    .ok (floppyData ++ [{ name := name, drive := none,
                          data := some emptyFloppySerialized }])

/-- `FileSystem.burnFloppy(name)` from the source: removes every record of
that name from the persisted array (`_.remove`), fails when none matched,
and unmounts the drive of the first removed record when it was mounted. -/
def FileSystem.burnFloppy (drives : DriveLabel → Option FileSystemDrive)
    (floppyData : List FloppyStorage) (name : String) :
    Except String ((DriveLabel → Option FileSystemDrive) × List FloppyStorage) :=
  match floppyData.filter (fun d => d.name == name) with
  | [] => .error "No floppy with that name"
  | floppy :: _ =>
    let drives2 :=
      match floppy.drive with
      | some l => FileSystem.unmount drives l
      | none => drives
    .ok (drives2, floppyData.filter (fun d => !(d.name == name)))

/-- The resolution loop of `FileSystem.getFileInfo`: all pieces but the
last must resolve to directory entries; the last is looked up by name
alone. -/
def FileSystem.walkPieces (cur : FileInfo) : List String → Option FileInfo
  | [] => none
  | [lastPiece] => cur.entries.find? (fun e => e.name == lastPiece)
  | pn :: rest =>
    match cur.entries.find? (fun e => e.isDirectory && e.name == pn) with
    | some found => FileSystem.walkPieces found rest
    | none => none

/-- `FileSystem.getFileInfo(path)` from the source. -/
def FileSystem.getFileInfo (fs : FileSystem) (path : Option FilePath) :
    Option FileInfo :=
  match path with
  | none => none
  | some p =>
    match p.drive with
    | none => none
    | some d =>
      match fs.drives d with
      | none => none
      | some fsDrive =>
        if p.pieces = [] then some fsDrive.rootEntry
        else FileSystem.walkPieces fsDrive.rootEntry p.pieces

/-- One descent step, written from the claim wording for comparison with
`getFileInfo`: an intermediate segment resolves when the current directory
holds a directory entry of that name. -/
def specDescendStep (cur : Option FileInfo) (n : String) : Option FileInfo :=
  match cur with
  | none => none
  | some c => c.entries.find? (fun e => e.isDirectory && e.name == n)

/-- Path resolution written from the claim wording, for comparison with
`getFileInfo`: an empty piece sequence resolves to the root itself; on a
nonempty one, every intermediate segment must resolve to an existing
directory entry and the final segment must exist in the directory so
reached. -/
def specResolvePath (root : FileInfo) (pieces : List String) : Option FileInfo :=
  match pieces.getLast? with
  | none => some root
  | some lastPiece =>
    match pieces.dropLast.foldl specDescendStep (some root) with
    | none => none
    | some parentDir => parentDir.entries.find? (fun e => e.name == lastPiece)

/-- `getFileInfo` written from the claim wording: not found when the path is
null, has no drive, or names an unmounted drive; otherwise resolution per
`specResolvePath`. -/
def specGetFileInfo (fs : FileSystem) (path : Option FilePath) :
    Option FileInfo :=
  match path with
  | none => none
  | some p =>
    match p.drive with
    | none => none
    | some d =>
      match fs.drives d with
      | none => none
      | some fsDrive => specResolvePath fsDrive.rootEntry p.pieces

/-- The invariant of C10: a drive-qualified path is absolute. -/
def FilePath.driveAbsInv (p : FilePath) : Prop :=
  p.drive.isSome = true → p.isAbsolute = true

theorem splitFirstColon_eq_none {cs : List Char} (h : ':' ∉ cs) :
    splitFirstColon cs = none := by
  induction cs with
  | nil => rfl
  | cons c rest ih =>
    simp only [List.mem_cons, not_or] at h
    simp only [splitFirstColon, ih h.2]
    exact if_neg (fun hc : c = ':' => h.1 hc.symm)

theorem FilePath.make_drive (d : Option DriveLabel) (ps : List String)
    (ab : Bool) : (FilePath.make d ps ab).drive = d := rfl

theorem FilePath.make_isAbsolute (d : Option DriveLabel) (ps : List String)
    (ab : Bool) : (FilePath.make d ps ab).isAbsolute = (d.isSome || ab) := rfl

theorem tryParseTail_none_abs_drive (path : List Char) (dd : Option DriveLabel)
    (habs : (tryParseTail none path dd).isAbsolute = true) :
    (tryParseTail none path dd).drive = dd := by
  by_cases hb : tryParseIsAbs path = true
  · simp [tryParseTail, hb, FilePath.make_drive]
  · rw [Bool.not_eq_true] at hb
    rw [tryParseTail, FilePath.make_isAbsolute, hb] at habs
    simp at habs

/-- C1: the spec states that combining with an absolute `other` yields
`other`; the source instead returns the receiver (`return this`), so at the
concrete input below the result is the receiver and differs from `other`.
This theorem evaluates the embedded code at that failing input. -/
theorem c1_combine_returns_receiver :
    FilePath.combine (FilePath.make (some DriveLabel.C) ["docs"] true)
        (FilePath.make (some DriveLabel.D) ["x"] true)
      = FilePath.make (some DriveLabel.C) ["docs"] true ∧
    FilePath.make (some DriveLabel.C) ["docs"] true
      ≠ FilePath.make (some DriveLabel.D) ["x"] true := by
  constructor
  · rfl
  · decide

/-- C2: the constructor catch block rethrows, so one corrupt
previously-mounted record aborts the whole initialization: with a corrupt
record for drive A followed by a healthy record for drive B, construction
throws (models to `none`) instead of mounting B and keeping C. -/
theorem c2_construct_aborts_on_corrupt_record :
    FileSystem.construct
      [⟨"bad", some DriveLabel.A, none⟩,
       ⟨"good", some DriveLabel.B, some ⟨.dir "/" []⟩⟩] = none := rfl

/-- C4 counterexample: the literal `/` is parsed by an early return that
never substitutes `defaultDrive`, so the resulting path is absolute with
drive `none`, not the supplied default drive A — the claim fails at the
input `/`. -/
theorem c4_counterexample :
    FilePath.tryParse ['/'] (some DriveLabel.A)
        = some (FilePath.make none [] true) ∧
    (FilePath.make none [] true).isAbsolute = true ∧
    (FilePath.make none [] true).drive ≠ some DriveLabel.A := by
  refine ⟨rfl, rfl, ?_⟩
  decide

/-- C4 (amended): for every accepted input without a drive prefix that
yields an absolute path, other than the literal `/`, the resulting drive is
the supplied default drive. -/
theorem c4_default_drive_substituted (cs : List Char) (dd : Option DriveLabel)
    (p : FilePath) (hcolon : ':' ∉ cs) (hroot : cs ≠ ['/'])
    (hp : FilePath.tryParse cs dd = some p) (habs : p.isAbsolute = true) :
    p.drive = dd := by
  by_cases h0 : cs = []
  · subst h0
    rw [FilePath.tryParse, if_pos rfl] at hp
    obtain rfl := Option.some.inj hp
    rw [FilePath.make_isAbsolute] at habs
    simp at habs
  · rw [FilePath.tryParse, if_neg h0, if_neg hroot,
      splitFirstColon_eq_none hcolon] at hp
    obtain rfl := Option.some.inj hp
    exact tryParseTail_none_abs_drive cs dd habs

/-- C4 witness: the amended theorem at the concrete input `/x` with default
drive B. -/
theorem c4_default_drive_substituted_witness :
    (FilePath.make (some DriveLabel.B) ["x"] true).drive = some DriveLabel.B :=
  c4_default_drive_substituted ['/', 'x'] (some DriveLabel.B)
    (FilePath.make (some DriveLabel.B) ["x"] true)
    (by decide) (by decide) (by decide) (by decide)

/-- C6: the constructor normalization, characterized segment by segment:
starting from nothing, a `.` segment is dropped, an ordinary segment is
appended, on an absolute path a `..` pops the last accumulated segment
(a no-op on an empty accumulation), and on a relative path a `..` is kept
literally. -/
theorem c6_normalization (d : Option DriveLabel) (ab : Bool)
    (ps : List String) (s : String) :
    (FilePath.make d [] ab).pieces = [] ∧
    (FilePath.make d (ps ++ ["."]) ab).pieces = (FilePath.make d ps ab).pieces ∧
    (s ≠ "." → s ≠ ".." →
      (FilePath.make d (ps ++ [s]) ab).pieces
        = (FilePath.make d ps ab).pieces ++ [s]) ∧
    ((d.isSome || ab) = true →
      (FilePath.make d (ps ++ [".."]) ab).pieces
        = (FilePath.make d ps ab).pieces.dropLast) ∧
    ((d.isSome || ab) = true → (FilePath.make d ps ab).pieces = [] →
      (FilePath.make d (ps ++ [".."]) ab).pieces = []) ∧
    (d = none → ab = false →
      (FilePath.make d (ps ++ [".."]) ab).pieces
        = (FilePath.make d ps ab).pieces ++ [".."]) := by
  have hstep : ∀ piece,
      (FilePath.make d (ps ++ [piece]) ab).pieces
        = normalizeStep (d.isSome || ab) (FilePath.make d ps ab).pieces piece := by
    intro piece
    simp [FilePath.make, List.foldl_append]
  refine ⟨rfl, ?_, ?_, ?_, ?_, ?_⟩
  · rw [hstep]
    simp [normalizeStep]
  · intro h1 h2
    rw [hstep]
    simp [normalizeStep, h1, h2]
  · intro hb
    rw [hstep, hb]
    by_cases hl : (FilePath.make d ps ab).pieces.length ≠ 0
    · simp [normalizeStep, hl]
    · simp only [ne_eq, not_not, List.length_eq_zero] at hl
      simp [normalizeStep, hl]
  · intro hb hnil
    rw [hstep, hb]
    simp [normalizeStep, hnil]
  · intro hd hab
    subst hd hab
    rw [hstep]
    simp [normalizeStep]

/-- C6 witness: the normalization equations at concrete inputs — appending
an ordinary segment, and popping by `..` on an absolute path. -/
theorem c6_normalization_witness :
    (FilePath.make none (["x"] ++ ["y"]) true).pieces
        = (FilePath.make none ["x"] true).pieces ++ ["y"] ∧
    (FilePath.make none (["x"] ++ [".."]) true).pieces
        = (FilePath.make none ["x"] true).pieces.dropLast :=
  ⟨(c6_normalization none true ["x"] "y").2.2.1 (by decide) (by decide),
   (c6_normalization none true ["x"] "y").2.2.2.1 (by decide)⟩

/-- C10: every path built by the private constructor satisfies the
invariant that a present drive forces absoluteness, and `tryParse`,
`combine` and `parentDirectory` only produce such paths — no
drive-qualified relative path is constructible. -/
theorem c10_drive_implies_absolute :
    (∀ d ps ab, (FilePath.make d ps ab).driveAbsInv) ∧
    (∀ cs dd p, FilePath.tryParse cs dd = some p → p.driveAbsInv) ∧
    (∀ (p q : FilePath), p.driveAbsInv → (p.combine q).driveAbsInv) ∧
    (∀ (p : FilePath), p.driveAbsInv → p.parentDirectory.driveAbsInv) := by
  have hmake : ∀ d ps ab, (FilePath.make d ps ab).driveAbsInv := by
    intro d ps ab h
    rw [FilePath.make_drive] at h
    rw [FilePath.make_isAbsolute, h]
    rfl
  refine ⟨hmake, ?_, ?_, ?_⟩
  · intro cs dd p hp
    rw [FilePath.tryParse] at hp
    split at hp
    · obtain rfl := Option.some.inj hp
      exact hmake _ _ _
    · split at hp
      · obtain rfl := Option.some.inj hp
        exact hmake _ _ _
      · split at hp
        · split at hp
          · cases hp
          · obtain rfl := Option.some.inj hp
            exact hmake _ _ _
        · obtain rfl := Option.some.inj hp
          exact hmake _ _ _
  · intro p q hp
    unfold FilePath.combine
    split
    · exact hp
    · exact hmake _ _ _
  · intro p hp
    unfold FilePath.parentDirectory
    split
    · exact hp
    · exact hmake _ _ _

/-- C10 witness: a drive-qualified path built with a relative flag combined
with a relative path is still absolute. -/
theorem c10_drive_implies_absolute_witness :
    ((FilePath.make (some DriveLabel.C) ["a"] false).combine
        (FilePath.make none ["b"] false)).isAbsolute = true :=
  c10_drive_implies_absolute.2.2.1
    (FilePath.make (some DriveLabel.C) ["a"] false)
    (FilePath.make none ["b"] false)
    (c10_drive_implies_absolute.1 (some DriveLabel.C) ["a"] false)
    (by decide)

/-- C8: `rmdir(name, force)` fails when no entry of that name exists, fails
when the found entry is not a directory, fails when that directory is
nonempty and `force` is false; otherwise it succeeds and no entry of that
name remains (with `force` true a nonempty directory is removed). -/
theorem c8_rmdir_spec (es : List FileInfo) (n : String) (force : Bool) :
    (es.find? (fun e => e.name == n) = none →
      FileInfoDirectory.rmdir es n force = .error (n ++ " does not exist")) ∧
    (∀ e, es.find? (fun e => e.name == n) = some e → e.isDirectory = false →
      FileInfoDirectory.rmdir es n force
        = .error (n ++ " is not a directory")) ∧
    (∀ e, es.find? (fun e => e.name == n) = some e → e.isDirectory = true →
      e.entries ≠ [] → force = false →
      FileInfoDirectory.rmdir es n force = .error (n ++ " is not empty")) ∧
    (∀ e, es.find? (fun e => e.name == n) = some e → e.isDirectory = true →
      (e.entries = [] ∨ force = true) →
      FileInfoDirectory.rmdir es n force
          = .ok (es.filter (fun e2 => !(e2.name == n))) ∧
        ∀ e2 ∈ es.filter (fun e2 => !(e2.name == n)), e2.name ≠ n) := by
  refine ⟨?_, ?_, ?_, ?_⟩
  · intro h
    rw [FileInfoDirectory.rmdir, h]
  · intro e he hdir
    rw [FileInfoDirectory.rmdir, he]
    simp [hdir]
  · intro e he hdir hne hf
    rw [FileInfoDirectory.rmdir, he]
    subst hf
    simp [hdir, List.length_eq_zero, hne]
  · intro e he hdir hor
    constructor
    · rw [FileInfoDirectory.rmdir, he]
      rcases hor with hnil | hf
      · simp [hdir, List.length_eq_zero, hnil]
      · subst hf
        simp [hdir]
    · intro e2 he2
      rw [List.mem_filter] at he2
      simpa using he2.2

/-- C8 witness: on a directory `d` holding one text entry, `rmdir` without
`force` fails with the not-empty error, and with `force` it succeeds with
no entry named `d` remaining. -/
theorem c8_rmdir_spec_witness :
    FileInfoDirectory.rmdir
        [FileInfo.directory "d" [FileInfo.text "t" ⟨"hi"⟩]] "d" false
      = .error ("d" ++ " is not empty") ∧
    FileInfoDirectory.rmdir
        [FileInfo.directory "d" [FileInfo.text "t" ⟨"hi"⟩]] "d" true
      = .ok (List.filter (fun e2 => !(e2.name == "d"))
          [FileInfo.directory "d" [FileInfo.text "t" ⟨"hi"⟩]]) :=
  ⟨((c8_rmdir_spec [FileInfo.directory "d" [FileInfo.text "t" ⟨"hi"⟩]]
      "d" false).2.2.1 (FileInfo.directory "d" [FileInfo.text "t" ⟨"hi"⟩])
      rfl rfl (by simp [FileInfo.entries]) rfl),
   ((c8_rmdir_spec [FileInfo.directory "d" [FileInfo.text "t" ⟨"hi"⟩]]
      "d" true).2.2.2 (FileInfo.directory "d" [FileInfo.text "t" ⟨"hi"⟩])
      rfl rfl (Or.inr rfl)).1⟩

/-- C9: on a persisted array with no record named `n`, and `n` matching
the name pattern, `spawnFloppy` appends exactly one unmounted record with
an empty serialized root, and `burnFloppy` immediately after restores the
original array (and touches no mounted drive). -/
theorem c9_spawn_then_burn (drives : DriveLabel → Option FileSystemDrive)
    (fd : List FloppyStorage) (n : String)
    (hname : floppyNameOk n = true)
    (habsent : ∀ r ∈ fd, r.name ≠ n) :
    FileSystem.spawnFloppy fd n
        = .ok (fd ++ [⟨n, none, some emptyFloppySerialized⟩]) ∧
      FileSystem.burnFloppy drives
          (fd ++ [⟨n, none, some emptyFloppySerialized⟩]) n
        = .ok (drives, fd) := by
  have hfind : fd.find? (fun d => d.name == n) = none := by
    rw [List.find?_eq_none]
    intro x hx
    simpa using habsent x hx
  constructor
  · rw [FileSystem.spawnFloppy, if_neg (by simp [hname]), if_neg (by simp [hfind])]
  · have hfilter1 : (fd ++ [(⟨n, none, some emptyFloppySerialized⟩ : FloppyStorage)]).filter
          (fun d => d.name == n)
        = [(⟨n, none, some emptyFloppySerialized⟩ : FloppyStorage)] := by
      rw [List.filter_append]
      rw [List.filter_eq_nil_iff.mpr (fun a ha => by simpa using habsent a ha)]
      simp
    have hfilter2 : (fd ++ [(⟨n, none, some emptyFloppySerialized⟩ : FloppyStorage)]).filter
          (fun d => !(d.name == n)) = fd := by
      rw [List.filter_append]
      rw [List.filter_eq_self.mpr (fun a ha => by simpa using habsent a ha)]
      simp
    rw [FileSystem.burnFloppy, hfilter1, hfilter2]

/-- C9 witness: the spawn-then-burn round trip on the empty persisted array
with the name `A1_b`. -/
theorem c9_spawn_then_burn_witness :
    FileSystem.spawnFloppy [] "A1_b"
        = .ok [⟨"A1_b", none, some emptyFloppySerialized⟩] ∧
      FileSystem.burnFloppy (fun _ => none)
          [⟨"A1_b", none, some emptyFloppySerialized⟩] "A1_b"
        = .ok ((fun _ => none), []) :=
  c9_spawn_then_burn (fun _ => none) [] "A1_b" (by decide)
    (fun r hr => absurd hr (List.not_mem_nil r))

theorem foldl_specDescendStep_none (l : List String) :
    l.foldl specDescendStep none = none := by
  induction l with
  | nil => rfl
  | cons a l ih => simpa [specDescendStep] using ih

theorem walkPieces_eq_specResolvePath (pieces : List String) :
    ∀ cur : FileInfo, pieces ≠ [] →
      FileSystem.walkPieces cur pieces = specResolvePath cur pieces := by
  induction pieces with
  | nil => exact fun cur h => absurd rfl h
  | cons x rest ih =>
    intro cur _
    cases rest with
    | nil => simp [FileSystem.walkPieces, specResolvePath, specDescendStep]
    | cons y rest2 =>
      have hlast : (x :: y :: rest2).getLast? = (y :: rest2).getLast? :=
        List.getLast?_cons_cons
      have hdrop : (x :: y :: rest2).dropLast = x :: (y :: rest2).dropLast :=
        List.dropLast_cons_of_ne_nil (by simp)
      obtain ⟨lp, hlp⟩ := Option.isSome_iff_exists.mp
        (List.getLast?_isSome.mpr (by simp : (y : String) :: rest2 ≠ []))
      cases hf : cur.entries.find? (fun e => e.isDirectory && e.name == x) with
      | some found =>
        have hw : FileSystem.walkPieces cur (x :: y :: rest2)
            = FileSystem.walkPieces found (y :: rest2) := by
          rw [FileSystem.walkPieces, hf]
          simp
        have hstep : specDescendStep (some cur) x = some found := by
          simpa [specDescendStep] using hf
        rw [hw, ih found (by simp), specResolvePath, specResolvePath, hlast,
          hlp, hdrop, List.foldl_cons, hstep]
      | none =>
        have hw : FileSystem.walkPieces cur (x :: y :: rest2) = none := by
          rw [FileSystem.walkPieces, hf]
          simp
        have hstep : specDescendStep (some cur) x = none := by
          simpa [specDescendStep] using hf
        rw [hw, specResolvePath, hlast, hlp, hdrop, List.foldl_cons, hstep,
          foldl_specDescendStep_none]

/-- C7: `getFileInfo` coincides everywhere with the resolution function
written from the claim wording: not found exactly when the path is null,
has no drive, names an unmounted drive, an intermediate segment does not
resolve to an existing directory entry, or the final segment does not
exist; and an empty piece sequence yields the drive root entry itself. -/
theorem c7_getFileInfo_eq_spec (fs : FileSystem) (path : Option FilePath) :
    FileSystem.getFileInfo fs path = specGetFileInfo fs path := by
  cases path with
  | none => rfl
  | some p =>
    cases hd : p.drive with
    | none => simp [FileSystem.getFileInfo, specGetFileInfo, hd]
    | some d =>
      cases hdr : fs.drives d with
      | none => simp [FileSystem.getFileInfo, specGetFileInfo, hd, hdr]
      | some fsDrive =>
        by_cases hp : p.pieces = []
        · simp [FileSystem.getFileInfo, specGetFileInfo, hd, hdr, hp,
            specResolvePath]
        · simp only [FileSystem.getFileInfo, specGetFileInfo, hd, hdr,
            if_neg hp]
          exact walkPieces_eq_specResolvePath p.pieces fsDrive.rootEntry hp

mutual

theorem FileInfo.inductionOn {P : FileInfo → Prop}
    (hdir : ∀ n es, (∀ e ∈ es, P e) → P (FileInfo.directory n es))
    (htxt : ∀ n d, P (FileInfo.text n d))
    (hexe : ∀ n c, P (FileInfo.executable n c))
    (haud : ∀ n d, P (FileInfo.audio n d))
    (himg : ∀ n d, P (FileInfo.image n d))
    (hlnk : ∀ n d o, P (FileInfo.link n d o))
    (hbin : ∀ n d, P (FileInfo.binary n d)) :
    ∀ f, P f
  | .directory n es =>
    hdir n es (FileInfo.inductionOnList hdir htxt hexe haud himg hlnk hbin es)
  | .text n d => htxt n d
  | .executable n c => hexe n c
  | .audio n d => haud n d
  | .image n d => himg n d
  | .link n d o => hlnk n d o
  | .binary n d => hbin n d

theorem FileInfo.inductionOnList {P : FileInfo → Prop}
    (hdir : ∀ n es, (∀ e ∈ es, P e) → P (FileInfo.directory n es))
    (htxt : ∀ n d, P (FileInfo.text n d))
    (hexe : ∀ n c, P (FileInfo.executable n c))
    (haud : ∀ n d, P (FileInfo.audio n d))
    (himg : ∀ n d, P (FileInfo.image n d))
    (hlnk : ∀ n d o, P (FileInfo.link n d o))
    (hbin : ∀ n d, P (FileInfo.binary n d)) :
    ∀ es : List FileInfo, ∀ e ∈ es, P e
  | f :: fs, e, he =>
    (List.mem_cons.mp he).elim
      (fun h => h ▸ FileInfo.inductionOn hdir htxt hexe haud himg hlnk hbin f)
      (fun h => FileInfo.inductionOnList hdir htxt hexe haud himg hlnk hbin fs e h)

end

theorem serializeEntries_roundTrip (es : List FileInfo)
    (IH : ∀ e ∈ es, serializableOnly e = true →
      (serializeFile e).map deserializeFile = some e)
    (h : serializableOnlyList es = true) :
    ∃ ss, serializeEntries es = some ss ∧ deserializeEntries ss = es := by
  induction es with
  | nil => exact ⟨[], rfl, rfl⟩
  | cons f fs ih =>
    rw [serializableOnlyList, Bool.and_eq_true] at h
    obtain ⟨s, hs1, hs2⟩ :=
      Option.map_eq_some'.mp (IH f (by simp) h.1)
    obtain ⟨ss, hss1, hss2⟩ :=
      ih (fun e he hse => IH e (List.mem_cons_of_mem _ he) hse) h.2
    refine ⟨s :: ss, ?_, ?_⟩
    · rw [serializeEntries, hs1, hss1]
    · rw [deserializeEntries, hs2, hss2]

theorem serialize_roundTrip : ∀ f : FileInfo, serializableOnly f = true →
    (serializeFile f).map deserializeFile = some f := by
  refine FileInfo.inductionOn ?_ ?_ ?_ ?_ ?_ ?_ ?_
  · intro n es IH h
    rw [serializableOnly] at h
    obtain ⟨ss, hss1, hss2⟩ := serializeEntries_roundTrip es IH h
    rw [serializeFile, hss1]
    simp only [Option.map_map, Option.map_some']
    rw [deserializeFile, hss2]
  · intro n d _
    cases d
    rfl
  · intro n c h
    simp [serializableOnly] at h
  · intro n d h
    simp [serializableOnly] at h
  · intro n d h
    simp [serializableOnly] at h
  · intro n d o h
    simp [serializableOnly] at h
  · intro n d _
    cases d
    rfl

theorem serializeFile_isSome (f : FileInfo) (h : serializableOnly f = true) :
    ∃ s, serializeFile f = some s ∧ deserializeFile s = f :=
  Option.map_eq_some'.mp (serialize_roundTrip f h)

/-- C5: for every tree built only from Directory, TextFile and Binary
entries, deserializing the serialized form yields the original tree:
structural equality covers names, types, nesting, child order, text
content and opaque binary content. -/
theorem c5_serialize_deserialize_roundTrip (f : FileInfo)
    (h : serializableOnly f = true) :
    (serializeFile f).map deserializeFile = some f :=
  serialize_roundTrip f h

/-- C5 witness: the round trip on a concrete small tree with a text file, a
nested directory and a binary file. -/
theorem c5_serialize_deserialize_roundTrip_witness :
    serializableOnly (FileInfo.directory "/" [FileInfo.text "a" ⟨"hi"⟩,
        FileInfo.directory "d" [FileInfo.binary "b" ⟨"zz"⟩]]) = true ∧
    (serializeFile (FileInfo.directory "/" [FileInfo.text "a" ⟨"hi"⟩,
        FileInfo.directory "d" [FileInfo.binary "b" ⟨"zz"⟩]])).map deserializeFile
      = some (FileInfo.directory "/" [FileInfo.text "a" ⟨"hi"⟩,
          FileInfo.directory "d" [FileInfo.binary "b" ⟨"zz"⟩]]) :=
  ⟨rfl, c5_serialize_deserialize_roundTrip _ rfl⟩

/-- C3 counterexample: a record marked mounted at A while nothing is
mounted at A makes `commit` read `.type` of `undefined` and throw a
TypeError (modelled as `none`) instead of terminating normally with the
record cleared — the claim fails at this input. -/
theorem c3_counterexample :
    FileSystem.commit ⟨fun _ => none⟩
      [⟨"f1", some DriveLabel.A, some ⟨.dir "/" []⟩⟩] = none := rfl

/-- C3 (amended): provided every record marked mounted names a label the
mount table actually occupies, and every mounted floppy tree is built from
serializable entries only, `commit` terminates normally and produces the
array in which a record mounted at a floppy label carries that drive
serialized tree as its data, a record mounted at a non-floppy label has its
drive field cleared, and an unmounted record is unchanged; when a marked
label holds no drive at all, `commit` instead throws. -/
theorem c3_commit_consistent (fs : FileSystem) (fd : List FloppyStorage)
    (hmount : ∀ r ∈ fd, ∀ l, r.drive = some l → (fs.drives l).isSome = true)
    (hser : ∀ r ∈ fd, ∀ l dr, r.drive = some l → fs.drives l = some dr →
      dr.isFloppy = true → serializableOnly dr.rootEntry = true) :
    ∃ out, FileSystem.commit fs fd = some out ∧
      List.Forall₂ (fun r r2 =>
        (r.drive = none → r2 = r) ∧
        (∀ l dr, r.drive = some l → fs.drives l = some dr →
          (dr.isFloppy = false → r2 = { r with drive := none }) ∧
          (dr.isFloppy = true → ∃ s, serializeFile dr.rootEntry = some s ∧
            r2 = { r with data := some ⟨s⟩ }))) fd out := by
  induction fd with
  | nil => exact ⟨[], rfl, List.Forall₂.nil⟩
  | cons r rest ih =>
    obtain ⟨out, hout, hrel⟩ :=
      ih (fun x hx => hmount x (List.mem_cons_of_mem _ hx))
        (fun x hx => hser x (List.mem_cons_of_mem _ hx))
    have hr := hmount r (by simp)
    have hs := hser r (by simp)
    cases hd : r.drive with
    | none =>
      refine ⟨r :: out, ?_, ?_⟩
      · simp only [FileSystem.commit] at hout ⊢
        simp [commitList, commitRecord, hd, hout]
      · exact List.Forall₂.cons
          ⟨fun _ => rfl, fun l dr hl => absurd (hd ▸ hl) (by simp)⟩ hrel
    | some l =>
      have hiss := hr l hd
      obtain ⟨dr, hdr⟩ := Option.isSome_iff_exists.mp hiss
      cases hfl : dr.isFloppy with
      | false =>
        refine ⟨{ r with drive := none } :: out, ?_, ?_⟩
        · simp only [FileSystem.commit] at hout ⊢
          simp [commitList, commitRecord, hd, hdr, hfl, hout]
        · refine List.Forall₂.cons ⟨fun hnone => absurd (hd ▸ hnone) (by simp),
            fun l2 dr2 hl2 hdr2 => ?_⟩ hrel
          rw [hd] at hl2
          obtain rfl : l = l2 := Option.some.inj hl2
          rw [hdr] at hdr2
          obtain rfl : dr = dr2 := Option.some.inj hdr2
          exact ⟨fun _ => rfl, fun htrue => absurd (hfl ▸ htrue) (by simp)⟩
      | true =>
        obtain ⟨s, hs1, _⟩ :=
          serializeFile_isSome dr.rootEntry (hs l dr hd hdr hfl)
        refine ⟨{ r with data := some ⟨s⟩ } :: out, ?_, ?_⟩
        · simp only [FileSystem.commit] at hout ⊢
          simp [commitList, commitRecord, hd, hdr, hfl, hs1, hout]
        · refine List.Forall₂.cons ⟨fun hnone => absurd (hd ▸ hnone) (by simp),
            fun l2 dr2 hl2 hdr2 => ?_⟩ hrel
          rw [hd] at hl2
          obtain rfl : l = l2 := Option.some.inj hl2
          rw [hdr] at hdr2
          obtain rfl : dr = dr2 := Option.some.inj hdr2
          exact ⟨fun hfalse => absurd (hfl ▸ hfalse) (by simp),
            fun _ => ⟨s, hs1, rfl⟩⟩

/-- C3 witness: the amended theorem on one record mounted at A with a
floppy drive holding an empty root actually present at A. -/
theorem c3_commit_consistent_witness :
    ∃ out, FileSystem.commit
        ⟨fun l => if l = DriveLabel.A
          then some (.floppy (FileInfo.directory "/" [])) else none⟩
        [⟨"f1", some DriveLabel.A, some ⟨.dir "/" [.txt "old" "x"]⟩⟩]
      = some out ∧
      List.Forall₂ (fun r r2 =>
        (r.drive = none → r2 = r) ∧
        (∀ l dr, r.drive = some l →
          (if l = DriveLabel.A
            then some (FileSystemDrive.floppy (FileInfo.directory "/" []))
            else none) = some dr →
          (dr.isFloppy = false → r2 = { r with drive := none }) ∧
          (dr.isFloppy = true → ∃ s, serializeFile dr.rootEntry = some s ∧
            r2 = { r with data := some ⟨s⟩ })))
        [⟨"f1", some DriveLabel.A, some ⟨.dir "/" [.txt "old" "x"]⟩⟩] out := by
  refine c3_commit_consistent _ _ ?_ ?_
  · intro r hr l hl
    rw [List.mem_singleton] at hr
    subst hr
    obtain rfl : DriveLabel.A = l := Option.some.inj hl
    rfl
  · intro r hr l dr hl hdr _
    rw [List.mem_singleton] at hr
    subst hr
    obtain rfl : DriveLabel.A = l := Option.some.inj hl
    simp only [if_pos rfl] at hdr
    obtain rfl := Option.some.inj hdr
    rfl
